import Mathlib

/-!
Verification of the Megaplace ingestion/cache/fan-out pipeline.

The development shallowly embeds:
* the `Megaplace` Solidity contract (`placePixel`, `placePixelBatch`,
  `getRegion`) — the external ledger that emits `PixelPlaced` events;
* the Express route handlers of `backend/src/app.ts` (coordinate /
  dimension / pagination validation, point lookup, region query,
  pagination `hasMore`, binary dump header, SSE stream shape);
* the binary decoder of `frontend/src/services/backendApi.ts`;
* the parts of the backend's `eventListener.ts` that are not present in
  the sources (the in-memory record cache, its `put` / `range` /
  `getPixelsArray` / `getPixelsBinary` accessors, the fan-out registry
  and `stopWatching`): those are modelled from the specification and
  each such definition is marked `Modelled from the spec:` in its doc
  comment.

Numbers are modelled as `Nat` (the Solidity sources use uint256/uint64
arithmetic only in ranges where no wrap-around can occur; where a wrap
matters it is written out explicitly).
-/

namespace Megaplace

/-- `CANVAS_RES` from the Megaplace contract: fixed canvas resolution
`2^20 = 1048576`, also the bound used by the backend's
`isValidCoordinate`. -/
def CANVAS_RES : Nat := 1048576

/-- Canonical key encoding used by both the ledger and the indexer:
`index = px + py * CANVAS_RES`. -/
def encodeKey (x y : Nat) : Nat := x + y * CANVAS_RES

/-- One normalized record of the indexer (the `PixelData` shape of the
backend): coordinates, color, placer, wall-clock timestamp, plus the
log position (block number) used for last-write-wins ordering. -/
structure Record where
  x : Nat
  y : Nat
  color : Nat
  placedBy : String
  timestamp : Nat
  position : Nat
  deriving Repr, DecidableEq

/-- The in-memory record cache: a mapping from encoded key to the
latest record for that key, `none` meaning "never written". -/
def Cache : Type := Nat → Option Record

/-- Modelled from the spec: the Cache mutation path of the backend's
`eventListener.ts` (not among the sources). "exposing `put(record)`
(applies only if incoming position > stored position, else no-op)": the
incoming record replaces the stored one exactly when its log position
is strictly greater; an absent key is always written. -/
def put (c : Cache) (r : Record) : Cache :=
  fun k =>
    if k = encodeKey r.x r.y then
      match c (encodeKey r.x r.y) with
      | none => some r
      | some old => if old.position < r.position then some r else some old
    else c k

theorem put_apply_key (c : Cache) (r : Record) :
    put c r (encodeKey r.x r.y) =
      match c (encodeKey r.x r.y) with
      | none => some r
      | some old => if old.position < r.position then some r else some old := by
  simp [put]

theorem put_apply_other (c : Cache) (r : Record) (k : Nat)
    (h : k ≠ encodeKey r.x r.y) : put c r k = c k := by
  simp [put, h]

/-- Value of `put` at an arbitrary key known to equal the record's key. -/
theorem put_at (c : Cache) (r : Record) (k : Nat)
    (hk : encodeKey r.x r.y = k) :
    put c r k =
      match c k with
      | none => some r
      | some old =>
          if old.position < r.position then some r else some old := by
  subst hk
  simp [put]

theorem put_idem (c : Cache) (r : Record) : put (put c r) r = put c r := by
  funext k
  by_cases hk : k = encodeKey r.x r.y
  · subst hk
    rw [put_apply_key]
    rcases h : c (encodeKey r.x r.y) with _ | old
    · rw [put_apply_key, h]
      simp
    · rw [put_apply_key, h]
      by_cases hp : old.position < r.position
      · simp [hp]
      · simp [hp]
  · rw [put_apply_other (put c r) r k hk, put_apply_other c r k hk]

/-- Folding three same-key entries: the survivor is decided by the
running strict position comparison. -/
theorem foldl_put_three (c0 : Cache) (k : Nat) (a b d : Record)
    (ha : encodeKey a.x a.y = k) (hb : encodeKey b.x b.y = k)
    (hd : encodeKey d.x d.y = k) (h0 : c0 k = none) :
    List.foldl put c0 [a, b, d] k =
      if a.position < b.position then
        (if b.position < d.position then some d else some b)
      else
        (if a.position < d.position then some d else some a) := by
  have h1 : put c0 a k = some a := by
    rw [put_at c0 a k ha, h0]
  have h2 : put (put c0 a) b k =
      if a.position < b.position then some b else some a := by
    rw [put_at (put c0 a) b k hb, h1]
  show put (put (put c0 a) b) d k = _
  rw [put_at (put (put c0 a) b) d k hd, h2]
  by_cases hab : a.position < b.position
  · rw [if_pos hab, if_pos hab]
  · rw [if_neg hab, if_neg hab]

/-- Claim C1: for a key holding a stored record, `put` changes the
stored record exactly when the incoming entry's log position is
strictly greater than the stored one; applying the same entry twice is
a no-op after the first application; and folding any interleaving of
three same-key entries with positions `p1 < p2 < p3` over a cache that
has not yet seen the key leaves the record of position `p3`. -/
theorem cache_put_last_write_wins
    (c : Cache) (r old : Record) (c0 : Cache) (e1 e2 e3 : Record)
    (l : List Record)
    (hstored : c (encodeKey r.x r.y) = some old)
    (hx2 : e2.x = e1.x) (hy2 : e2.y = e1.y)
    (hx3 : e3.x = e1.x) (hy3 : e3.y = e1.y)
    (hfresh : c0 (encodeKey e1.x e1.y) = none)
    (h12 : e1.position < e2.position) (h23 : e2.position < e3.position)
    (hperm : l ∈ [[e1, e2, e3], [e1, e3, e2], [e2, e1, e3],
                  [e2, e3, e1], [e3, e1, e2], [e3, e2, e1]]) :
    (put c r (encodeKey r.x r.y) ≠ c (encodeKey r.x r.y) ↔
        old.position < r.position)
      ∧ put (put c r) r = put c r
      ∧ (l.foldl put c0) (encodeKey e1.x e1.y) = some e3 := by
  have hv : put c r (encodeKey r.x r.y) =
      if old.position < r.position then some r else some old := by
    rw [put_apply_key, hstored]
  refine ⟨?_, put_idem c r, ?_⟩
  · rw [hv, hstored]
    by_cases hlt : old.position < r.position
    · simp only [if_pos hlt, ne_eq, hlt, iff_true]
      intro h
      have hro : r = old := Option.some.inj h
      rw [hro] at hlt
      exact absurd hlt (lt_irrefl _)
    · simp only [if_neg hlt, ne_eq, not_true_eq_false, false_iff]
      exact hlt
  · have key2 : encodeKey e2.x e2.y = encodeKey e1.x e1.y := by
      rw [hx2, hy2]
    have key3 : encodeKey e3.x e3.y = encodeKey e1.x e1.y := by
      rw [hx3, hy3]
    simp only [List.mem_cons, List.mem_singleton, List.not_mem_nil,
      or_false] at hperm
    rcases hperm with h | h | h | h | h | h <;> subst h
    · rw [foldl_put_three c0 _ e1 e2 e3 rfl key2 key3 hfresh,
        if_pos h12, if_pos h23]
    · rw [foldl_put_three c0 _ e1 e3 e2 rfl key3 key2 hfresh,
        if_pos (by omega), if_neg (by omega)]
    · rw [foldl_put_three c0 _ e2 e1 e3 key2 rfl key3 hfresh,
        if_neg (by omega), if_pos (by omega)]
    · rw [foldl_put_three c0 _ e2 e3 e1 key2 key3 rfl hfresh,
        if_pos h23, if_neg (by omega)]
    · rw [foldl_put_three c0 _ e3 e1 e2 key3 rfl key2 hfresh,
        if_neg (by omega), if_neg (by omega)]
    · rw [foldl_put_three c0 _ e3 e2 e1 key3 key2 rfl hfresh,
        if_neg (by omega), if_neg (by omega)]

/-- Concrete witness for `cache_put_last_write_wins`. -/
theorem cache_put_last_write_wins_witness :
    let r1 : Record :=
      { x := 0, y := 0, color := 0xFF0000, placedBy := "a",
        timestamp := 5, position := 10 }
    let r2 : Record :=
      { x := 0, y := 0, color := 0x00FF00, placedBy := "b",
        timestamp := 6, position := 11 }
    let r3 : Record :=
      { x := 0, y := 0, color := 0x0000FF, placedBy := "c",
        timestamp := 7, position := 12 }
    let c : Cache := fun k => if k = encodeKey 0 0 then some r1 else none
    let c0 : Cache := fun _ => none
    (put c r2 (encodeKey r2.x r2.y) ≠ c (encodeKey r2.x r2.y) ↔
        r1.position < r2.position)
      ∧ put (put c r2) r2 = put c r2
      ∧ (([r3, r1, r2] : List Record).foldl put c0) (encodeKey r1.x r1.y)
          = some r3 := by
  intro r1 r2 r3 c c0
  exact cache_put_last_write_wins c r2 r1 c0 r1 r2 r3 [r3, r1, r2]
    (by simp [c, encodeKey]) rfl rfl rfl rfl (by simp [c0])
    (by decide) (by decide) (by simp)

/-! ### Row-major rectangle enumeration -/

/-- Elements of a row-major rectangle enumeration built by `flatMap`
over `List.range`, addressed as `row * width + column`. -/
theorem flatMap_range_getElem {α : Type} (g : Nat → List α) (w : Nat)
    (hg : ∀ y, (g y).length = w) (h dx dy : Nat)
    (hdx : dx < w) (hdy : dy < h) :
    ((List.range h).flatMap g)[dy * w + dx]? = (g dy)[dx]? := by
  induction dy generalizing g h with
  | zero =>
      obtain ⟨h', rfl⟩ : ∃ h', h = h' + 1 := ⟨h - 1, by omega⟩
      rw [List.range_succ_eq_map, List.flatMap_cons, List.getElem?_append]
      rw [hg 0]
      simp only [Nat.zero_mul, Nat.zero_add, if_pos hdx]
  | succ dy ih =>
      obtain ⟨h', rfl⟩ : ∃ h', h = h' + 1 := ⟨h - 1, by omega⟩
      rw [List.range_succ_eq_map, List.flatMap_cons,
        List.getElem?_append_right (by rw [hg 0, Nat.succ_mul]; omega)]
      have harith : (dy + 1) * w + dx - (g 0).length = dy * w + dx := by
        rw [hg 0, Nat.succ_mul]
        omega
      rw [harith]
      have hmap : (List.map Nat.succ (List.range h')).flatMap g =
          (List.range h').flatMap (fun y => g (y + 1)) := by
        rw [List.flatMap_map]
      rw [hmap]
      exact ih (fun y => g (y + 1)) (fun y => hg (y + 1)) h' (by omega)

/-- Length of a row-major rectangle enumeration. -/
theorem flatMap_range_length {α : Type} (g : Nat → List α) (w h : Nat)
    (hg : ∀ y, (g y).length = w) :
    ((List.range h).flatMap g).length = w * h := by
  rw [List.length_flatMap]
  have : List.map (List.length ∘ g) (List.range h) =
      List.replicate h w := by
    rw [show List.length ∘ g = Function.const Nat w from funext fun y => hg y,
      List.map_const, List.length_range]
  rw [this, List.sum_replicate, smul_eq_mul, Nat.mul_comm]

/-! ### The Cache's range query and the ledger's getRegion -/

/-- One entry of the backend's region response (the `PixelData` shape
without ingestion metadata). -/
structure RegionEntry where
  x : Nat
  y : Nat
  color : Nat
  placedBy : String
  deriving Repr, DecidableEq

/-- Modelled from the spec: the entry the Cache's range query reports
for one coordinate — the stored record if present, otherwise the
default "unset" entry with color `0` and placer "none". -/
def entryAt (c : Cache) (cx cy : Nat) : RegionEntry :=
  match c (encodeKey cx cy) with
  | some r => { x := cx, y := cy, color := r.color, placedBy := r.placedBy }
  | none => { x := cx, y := cy, color := 0, placedBy := "none" }

/-- Modelled from the spec: `eventListener.getRegion` is not among the
sources; per the spec the Cache exposes
`range(minX, minY, width, height)` which "iterates the rectangle in
row-major order, returning a default "unset" color for absent keys —
never an error for unset-but-in-bounds coordinates", with "unset
coordinates defaulting to color `0` and placer "none"". -/
def range (c : Cache) (x y w h : Nat) : List RegionEntry :=
  (List.range h).flatMap fun dy =>
    (List.range w).map fun dx => entryAt c (x + dx) (y + dy)

/-- One slot of the ledger's `canvas` mapping (`struct pixel` of the
Megaplace contract). -/
structure ContractPixel where
  color : Nat
  placedBy : Nat
  timestamp : Nat
  deriving Repr, DecidableEq

/-- Solidity mapping default: all-zero struct. -/
def emptyPixel : ContractPixel := { color := 0, placedBy := 0, timestamp := 0 }

/-- The ledger's canvas: total mapping with all-zero default. -/
def Canvas : Type := Nat → ContractPixel

/-- `Megaplace.getRegion` from the contract source: reverts on invalid
start coordinates, an out-of-bounds rectangle or zero dimensions, else
returns the `width * height` colors of the rectangle in row-major
order, with absent slots reading as the mapping default. -/
def getRegion (canvas : Canvas) (startPx startPy width height : Nat) :
    Except String (List Nat) :=
  if ¬(startPx < CANVAS_RES ∧ startPy < CANVAS_RES) then
    .error "Megaplace: invalid start coordinates"
  else if ¬(startPx + width ≤ CANVAS_RES ∧ startPy + height ≤ CANVAS_RES) then
    .error "Megaplace: region out of bounds"
  else if ¬(0 < width ∧ 0 < height) then
    .error "Megaplace: invalid dimensions"
  else
    .ok ((List.range height).flatMap fun dy =>
      (List.range width).map fun dx =>
        (canvas ((startPx + dx) + (startPy + dy) * CANVAS_RES)).color)

/-- Claim C2: the Cache's range query returns exactly `w * h` entries,
one per coordinate of the rectangle in row-major order, unset
coordinates defaulting to color `0` and placer "none" (never an
error); and the ledger's `getRegion` likewise returns exactly
`w * h` colors in row-major order for every in-bounds rectangle,
unset slots reading `0`. -/
theorem range_completeness
    (c : Cache) (canvas : Canvas) (x y w h dx dy : Nat)
    (hdx : dx < w) (hdy : dy < h)
    (hx : x < CANVAS_RES) (hy : y < CANVAS_RES)
    (hxw : x + w ≤ CANVAS_RES) (hyh : y + h ≤ CANVAS_RES) :
    (range c x y w h).length = w * h
      ∧ (range c x y w h)[dy * w + dx]? = some (entryAt c (x + dx) (y + dy))
      ∧ (c (encodeKey (x + dx) (y + dy)) = none →
          entryAt c (x + dx) (y + dy) =
            { x := x + dx, y := y + dy, color := 0, placedBy := "none" })
      ∧ ∃ colors : List Nat,
          getRegion canvas x y w h = .ok colors
            ∧ colors.length = w * h
            ∧ colors[dy * w + dx]? =
                some ((canvas ((x + dx) + (y + dy) * CANVAS_RES)).color) := by
  have hglen : ∀ dy' : Nat,
      ((List.range w).map fun dx' => entryAt c (x + dx') (y + dy')).length
        = w := by
    intro dy'
    rw [List.length_map, List.length_range]
  refine ⟨flatMap_range_length _ w h hglen, ?_, ?_, ?_⟩
  · rw [range, flatMap_range_getElem _ w hglen h dx dy hdx hdy]
    rw [List.getElem?_map, List.getElem?_range hdx]
    rfl
  · intro hnone
    rw [entryAt, hnone]
  · refine ⟨(List.range h).flatMap fun dy' =>
        (List.range w).map fun dx' =>
          (canvas ((x + dx') + (y + dy') * CANVAS_RES)).color, ?_, ?_, ?_⟩
    · rw [getRegion, if_neg (by omega), if_neg (by omega),
        if_neg (by omega)]
    · exact flatMap_range_length _ w h
        (fun dy' => by rw [List.length_map, List.length_range])
    · rw [flatMap_range_getElem _ w
        (fun dy' => by rw [List.length_map, List.length_range]) h dx dy hdx hdy]
      rw [List.getElem?_map, List.getElem?_range hdx]
      rfl

/-- Concrete witness for `range_completeness`: a 2×2 rectangle at the
origin over a cache holding one record, checked at coordinate (1, 1). -/
theorem range_completeness_witness :
    let r : Record :=
      { x := 0, y := 0, color := 0xFF0000, placedBy := "a",
        timestamp := 1, position := 1 }
    let c : Cache := fun k => if k = encodeKey 0 0 then some r else none
    let canvas : Canvas := fun _ => emptyPixel
    (range c 0 0 2 2).length = 2 * 2
      ∧ (range c 0 0 2 2)[1 * 2 + 1]? = some (entryAt c (0 + 1) (0 + 1))
      ∧ (c (encodeKey (0 + 1) (0 + 1)) = none →
          entryAt c (0 + 1) (0 + 1) =
            { x := 0 + 1, y := 0 + 1, color := 0, placedBy := "none" })
      ∧ ∃ colors : List Nat,
          getRegion canvas 0 0 2 2 = .ok colors
            ∧ colors.length = 2 * 2
            ∧ colors[1 * 2 + 1]? =
                some ((canvas ((0 + 1) + (0 + 1) * CANVAS_RES)).color) := by
  intro r c canvas
  exact range_completeness c canvas 0 0 2 2 1 1 (by decide) (by decide)
    (by decide) (by decide) (by decide) (by decide)

/-! ### Query façade route handlers (backend/src/app.ts) -/

/-- `isValidCoordinate` from `app.ts`: the value must be a number
(`parseInt` of the path segment; `none` models `NaN`), an integer
(guaranteed by `Int`), and lie in `[0, 1048576)`. -/
def isValidCoordinate : Option Int → Bool
  | none => false
  | some n => decide (0 ≤ n) && decide (n < 1048576)

/-- `isValidDimension` from `app.ts`: a number, an integer, strictly
positive and at most `max`. -/
def isValidDimension (v : Option Int) (max : Int) : Bool :=
  match v with
  | none => false
  | some n => decide (0 < n) && decide (n ≤ max)

/-- `isValidPaginationParam` from `app.ts`: a number, an integer,
non-negative and at most `max`. -/
def isValidPaginationParam (v : Option Int) (max : Int) : Bool :=
  match v with
  | none => false
  | some n => decide (0 ≤ n) && decide (n ≤ max)

/-- Responses of the point-lookup route `GET /api/pixels/:x/:y`. -/
inductive LookupResponse where
  | badRequest (msg : String)
  | notFound
  | found (r : Record)
  deriving Repr, DecidableEq

/-- HTTP status of a point-lookup response as set by the handler. -/
def statusOf : LookupResponse → Nat
  | .badRequest _ => 400
  | .notFound => 404
  | .found _ => 200

/-- The `success` field of a point-lookup response body. -/
def successOf : LookupResponse → Bool
  | .badRequest _ => false
  | .notFound => false
  | .found _ => true

/-- The handler of `GET /api/pixels/:x/:y` from `app.ts`: parse both
path segments, reject with a 400 descriptive error unless both pass
`isValidCoordinate`, then look the coordinate up in the cache
(`eventListener.getPixel`, modelled as a lookup of the canonical key)
and answer 404 for an absent record, 200 with the record otherwise. -/
def getPixelRoute (cache : Cache) (x y : Option Int) : LookupResponse :=
  if isValidCoordinate x && isValidCoordinate y then
    match cache (encodeKey (x.getD 0).toNat (y.getD 0).toNat) with
    | none => .notFound
    | some p => .found p
  else
    .badRequest "Invalid coordinates. Must be integers between 0 and 1048575."

/-- Claim C6: the point-lookup request is rejected with a 400
descriptive error exactly when `x` or `y` is not an integer in
`[0, 1048576)`; for in-range coordinates the handler only ever
answers from the cache (404 or 200), never a fault. -/
theorem point_lookup_validation (cache : Cache) (x y : Option Int) :
    (statusOf (getPixelRoute cache x y) = 400 ↔
      ¬ ((∃ m : Int, x = some m ∧ 0 ≤ m ∧ m < 1048576) ∧
         (∃ n : Int, y = some n ∧ 0 ≤ n ∧ n < 1048576)))
      ∧ (∀ m n : Int,
          x = some m → 0 ≤ m → m < 1048576 →
          y = some n → 0 ≤ n → n < 1048576 →
          getPixelRoute cache x y =
            match cache (encodeKey m.toNat n.toNat) with
            | none => LookupResponse.notFound
            | some p => LookupResponse.found p) := by
  constructor
  · have hvalid : (isValidCoordinate x && isValidCoordinate y) = true ↔
        ((∃ m : Int, x = some m ∧ 0 ≤ m ∧ m < 1048576) ∧
         (∃ n : Int, y = some n ∧ 0 ≤ n ∧ n < 1048576)) := by
      rcases x with _ | m <;> rcases y with _ | n <;>
        simp [isValidCoordinate]
    by_cases hv : (isValidCoordinate x && isValidCoordinate y) = true
    · rw [getPixelRoute, if_pos hv]
      rw [hvalid] at hv
      rcases hcc : cache (encodeKey (x.getD 0).toNat (y.getD 0).toNat)
        with _ | p <;> simp [statusOf, hv]
    · rw [getPixelRoute, if_neg hv]
      rw [hvalid] at hv
      simp [statusOf, hv]
  · intro m n hxm hm0 hm1 hyn hn0 hn1
    subst hxm; subst hyn
    rw [getPixelRoute, if_pos (by simp [isValidCoordinate]; omega)]
    rfl

/-- Concrete witness for `point_lookup_validation`. -/
theorem point_lookup_validation_witness :
    let c : Cache := fun _ => none
    (statusOf (getPixelRoute c (some 3) (some 7)) = 400 ↔
      ¬ ((∃ m : Int, (some 3 : Option Int) = some m ∧ 0 ≤ m ∧ m < 1048576) ∧
         (∃ n : Int, (some 7 : Option Int) = some n ∧ 0 ≤ n ∧ n < 1048576)))
      ∧ (∀ m n : Int,
          (some 3 : Option Int) = some m → 0 ≤ m → m < 1048576 →
          (some 7 : Option Int) = some n → 0 ≤ n → n < 1048576 →
          getPixelRoute c (some 3) (some 7) =
            match c (encodeKey m.toNat n.toNat) with
            | none => LookupResponse.notFound
            | some p => LookupResponse.found p) := by
  intro c
  exact point_lookup_validation c (some 3) (some 7)

/-- Claim C10: for an in-range coordinate with no record the point
lookup answers 404 with `success: false`; a stored record — also one
with color `0` — is answered 200 with the record and `success: true`,
so "never written" is observable and distinct from "explicitly
cleared". -/
theorem point_lookup_absent_vs_cleared
    (cache : Cache) (x y : Nat) (r : Record)
    (hx : x < 1048576) (hy : y < 1048576) :
    (cache (encodeKey x y) = none →
        getPixelRoute cache (some (x : Int)) (some (y : Int)) =
            LookupResponse.notFound
          ∧ statusOf (getPixelRoute cache (some (x : Int)) (some (y : Int)))
              = 404
          ∧ successOf (getPixelRoute cache (some (x : Int)) (some (y : Int)))
              = false)
      ∧ (cache (encodeKey x y) = some r →
          getPixelRoute cache (some (x : Int)) (some (y : Int)) =
              LookupResponse.found r
            ∧ statusOf (getPixelRoute cache (some (x : Int)) (some (y : Int)))
                = 200
            ∧ successOf (getPixelRoute cache (some (x : Int)) (some (y : Int)))
                = true) := by
  have hroute : getPixelRoute cache (some (x : Int)) (some (y : Int)) =
      match cache (encodeKey x y) with
      | none => LookupResponse.notFound
      | some p => LookupResponse.found p := by
    rw [getPixelRoute,
      if_pos (by simp [isValidCoordinate]; constructor <;> exact_mod_cast ‹_›)]
    simp
  constructor
  · intro hnone
    rw [hroute, hnone]
    exact ⟨rfl, rfl, rfl⟩
  · intro hsome
    rw [hroute, hsome]
    exact ⟨rfl, rfl, rfl⟩

/-- Concrete witness for `point_lookup_absent_vs_cleared`: a cache
holding an explicitly cleared record (color `0`) at `(5, 5)` and
nothing elsewhere. -/
theorem point_lookup_absent_vs_cleared_witness :
    let r : Record :=
      { x := 5, y := 5, color := 0, placedBy := "a",
        timestamp := 1, position := 1 }
    let c : Cache := fun k => if k = encodeKey 5 5 then some r else none
    (c (encodeKey 3 3) = none →
        getPixelRoute c (some (3 : Int)) (some (3 : Int)) =
            LookupResponse.notFound
          ∧ statusOf (getPixelRoute c (some (3 : Int)) (some (3 : Int))) = 404
          ∧ successOf (getPixelRoute c (some (3 : Int)) (some (3 : Int)))
              = false)
      ∧ (c (encodeKey 3 3) = some r →
          getPixelRoute c (some (3 : Int)) (some (3 : Int)) =
              LookupResponse.found r
            ∧ statusOf (getPixelRoute c (some (3 : Int)) (some (3 : Int)))
                = 200
            ∧ successOf (getPixelRoute c (some (3 : Int)) (some (3 : Int)))
                = true) := by
  intro r c
  exact point_lookup_absent_vs_cleared c 3 3 r (by decide) (by decide)

/-- Responses of
`GET /api/pixels/region/:startX/:startY/:width/:height`. -/
inductive RegionResponse where
  | badCoords
  | badDims
  | tooLarge
  | okRegion (entries : List RegionEntry)
  deriving Repr, DecidableEq

/-- HTTP status of a region response as set by the handler. -/
def regionStatusOf : RegionResponse → Nat
  | .badCoords => 400
  | .badDims => 400
  | .tooLarge => 400
  | .okRegion _ => 200

/-- The handler of
`GET /api/pixels/region/:startX/:startY/:width/:height` from `app.ts`:
400 unless the start coordinates pass `isValidCoordinate`, 400 unless
both dimensions pass `isValidDimension _ 1000`, 400 when
`width * height > 10000`, else the region from the cache
(`eventListener.getRegion`, modelled as the Cache's range query). -/
def regionRoute (c : Cache) (sx sy w h : Option Int) : RegionResponse :=
  if isValidCoordinate sx && isValidCoordinate sy then
    if isValidDimension w 1000 && isValidDimension h 1000 then
      if 10000 < (w.getD 0) * (h.getD 0) then
        .tooLarge
      else
        .okRegion (range c (sx.getD 0).toNat (sy.getD 0).toNat
          (w.getD 0).toNat (h.getD 0).toNat)
    else
      .badDims
  else
    .badCoords

/-- Claim C7: with valid start coordinates, a region request is
rejected with a 400 descriptive error whenever a dimension exceeds
1000 (or is not a positive integer) or the area exceeds 10000 pixels;
a request with both dimensions in `[1, 1000]` and area at most 10000
is not rejected for size. -/
theorem region_size_validation
    (c : Cache) (sx sy w h : Int)
    (hsx0 : 0 ≤ sx) (hsx1 : sx < 1048576)
    (hsy0 : 0 ≤ sy) (hsy1 : sy < 1048576) :
    ((1000 < w ∨ 1000 < h) →
        regionRoute c (some sx) (some sy) (some w) (some h) =
            RegionResponse.badDims
          ∧ regionStatusOf
              (regionRoute c (some sx) (some sy) (some w) (some h)) = 400)
      ∧ (1 ≤ w → w ≤ 1000 → 1 ≤ h → h ≤ 1000 → 10000 < w * h →
          regionRoute c (some sx) (some sy) (some w) (some h) =
              RegionResponse.tooLarge
            ∧ regionStatusOf
                (regionRoute c (some sx) (some sy) (some w) (some h)) = 400)
      ∧ (1 ≤ w → w ≤ 1000 → 1 ≤ h → h ≤ 1000 → w * h ≤ 10000 →
          regionRoute c (some sx) (some sy) (some w) (some h) =
            RegionResponse.okRegion
              (range c sx.toNat sy.toNat w.toNat h.toNat)) := by
  have hcoords : (isValidCoordinate (some sx) &&
      isValidCoordinate (some sy)) = true := by
    simp [isValidCoordinate]
    omega
  refine ⟨?_, ?_, ?_⟩
  · intro hbig
    have hdims : (isValidDimension (some w) 1000 &&
        isValidDimension (some h) 1000) = false := by
      simp [isValidDimension]
      omega
    rw [regionRoute, if_pos hcoords, if_neg (by rw [hdims]; decide)]
    exact ⟨rfl, rfl⟩
  · intro hw1 hw2 hh1 hh2 harea
    rw [regionRoute, if_pos hcoords,
      if_pos (by simp [isValidDimension]; omega),
      if_pos (by simpa using harea)]
    exact ⟨rfl, rfl⟩
  · intro hw1 hw2 hh1 hh2 harea
    rw [regionRoute, if_pos hcoords,
      if_pos (by simp [isValidDimension]; omega),
      if_neg (by simpa using not_lt.mpr harea)]
    rfl

/-- Concrete witness for `region_size_validation` at a 100×100 request
from the origin. -/
theorem region_size_validation_witness :
    let c : Cache := fun _ => none
    ((1000 < (100 : Int) ∨ 1000 < (100 : Int)) →
        regionRoute c (some 0) (some 0) (some 100) (some 100) =
            RegionResponse.badDims
          ∧ regionStatusOf
              (regionRoute c (some 0) (some 0) (some 100) (some 100)) = 400)
      ∧ (1 ≤ (100 : Int) → (100 : Int) ≤ 1000 →
          1 ≤ (100 : Int) → (100 : Int) ≤ 1000 →
          10000 < (100 : Int) * 100 →
          regionRoute c (some 0) (some 0) (some 100) (some 100) =
              RegionResponse.tooLarge
            ∧ regionStatusOf
                (regionRoute c (some 0) (some 0) (some 100) (some 100)) = 400)
      ∧ (1 ≤ (100 : Int) → (100 : Int) ≤ 1000 →
          1 ≤ (100 : Int) → (100 : Int) ≤ 1000 →
          (100 : Int) * 100 ≤ 10000 →
          regionRoute c (some 0) (some 0) (some 100) (some 100) =
            RegionResponse.okRegion
              (range c (0 : Int).toNat (0 : Int).toNat
                (100 : Int).toNat (100 : Int).toNat)) := by
  intro c
  exact region_size_validation c 0 0 100 100
    (by decide) (by decide) (by decide) (by decide)

/-! ### The ledger's placePixel / placePixelBatch (Megaplace contract) -/

/-- Mutable contract storage read and written by `placePixel`:
the canvas mapping, `lastPlaced` and `premiumAccess` (both mappings
from address to uint64 timestamp, addresses modelled as `Nat`). -/
structure ContractState where
  canvas : Canvas
  lastPlaced : Nat → Nat
  premiumAccess : Nat → Nat

/-- The `PixelPlaced(user, x, y, color, timestamp)` event. -/
structure PixelPlacedEvent where
  user : Nat
  x : Nat
  y : Nat
  color : Nat
  timestamp : Nat
  deriving Repr, DecidableEq

/-- `Megaplace.placePixel` from the contract source: reverts outside
the canvas or when rate-limited, else remaps color `0` to the sentinel
`0x010101`, stores the pixel, records `lastPlaced`, and emits one
`PixelPlaced` event carrying the stored color. `block.timestamp` is
truncated to uint64 as in the source. -/
def placePixel (s : ContractState) (sender px py color ts : Nat) :
    Except String (ContractState × PixelPlacedEvent) :=
  if ¬(px < CANVAS_RES ∧ py < CANVAS_RES) then
    .error "Megaplace: invalid coordinates"
  else
    let currentTime := ts % 2 ^ 64
    let userPremiumExpiry := s.premiumAccess sender
    if userPremiumExpiry < currentTime ∧
        currentTime < s.lastPlaced sender + 15 then
      .error "Megaplace: rate limit exceeded"
    else
      let index := px + py * CANVAS_RES
      let storedColor := if color = 0 then 0x010101 else color
      .ok
        ({ s with
            canvas := fun k =>
              if k = index then
                { color := storedColor, placedBy := sender,
                  timestamp := currentTime }
              else s.canvas k,
            lastPlaced := fun a =>
              if a = sender then currentTime else s.lastPlaced a },
         { user := sender, x := px, y := py, color := storedColor,
           timestamp := currentTime })

/-- The per-pixel loop of `Megaplace.placePixelBatch`: validates each
coordinate, remaps color `0` to `0x010101`, stores, and emits one
`PixelPlaced` event per pixel; any invalid coordinate reverts the
whole batch. -/
def placeLoop (canvas : Canvas) (sender currentTime : Nat) :
    List (Nat × Nat × Nat) → Except String (Canvas × List PixelPlacedEvent)
  | [] => .ok (canvas, [])
  | (px, py, color) :: rest =>
      if ¬(px < CANVAS_RES ∧ py < CANVAS_RES) then
        .error "Megaplace: invalid coordinates"
      else
        let index := px + py * CANVAS_RES
        let storedColor := if color = 0 then 0x010101 else color
        match placeLoop
            (fun k =>
              if k = index then
                { color := storedColor, placedBy := sender,
                  timestamp := currentTime }
              else canvas k)
            sender currentTime rest with
        | .error e => .error e
        | .ok (c2, evs) =>
            .ok (c2,
              { user := sender, x := px, y := py, color := storedColor,
                timestamp := currentTime } :: evs)

/-- `Megaplace.placePixelBatch` from the contract source (the
color-free `PixelsBatchPlaced` summary event is omitted): length and
batch-size checks, one shared rate-limit check, then the per-pixel
loop. -/
def placePixelBatch (s : ContractState) (sender : Nat)
    (px py colors : List Nat) (ts : Nat) :
    Except String (ContractState × List PixelPlacedEvent) :=
  if ¬(px.length = py.length ∧ px.length = colors.length) then
    .error "Megaplace: array length mismatch"
  else if ¬(0 < px.length ∧ px.length ≤ 100) then
    .error "Megaplace: batch size must be 1-100"
  else
    let currentTime := ts % 2 ^ 64
    if s.premiumAccess sender < currentTime ∧
        currentTime < s.lastPlaced sender + 15 then
      .error "Megaplace: rate limit exceeded"
    else
      match placeLoop s.canvas sender currentTime
          (px.zip (py.zip colors)) with
      | .error e => .error e
      | .ok (c2, evs) =>
          .ok
            ({ s with
                canvas := c2,
                lastPlaced := fun a =>
                  if a = sender then currentTime else s.lastPlaced a },
             evs)

/-- Modelled from the spec: the indexer's normalization boundary (in
`eventListener.ts`, not among the sources) "should treat whatever the
ledger returns as opaque and not re-derive or second-guess that
mapping — implementers should preserve it as received rather than
reinterpreting it": the event's color is carried into the Record
unchanged. -/
def normalizeEvent (e : PixelPlacedEvent) (position : Nat) : Record :=
  { x := e.x, y := e.y, color := e.color, placedBy := toString e.user,
    timestamp := e.timestamp, position := position }

theorem placeLoop_no_zero_color (sender currentTime : Nat) :
    ∀ (l : List (Nat × Nat × Nat)) (canvas c2 : Canvas)
      (evs : List PixelPlacedEvent),
      placeLoop canvas sender currentTime l = .ok (c2, evs) →
      ∀ e ∈ evs, e.color ≠ 0 := by
  intro l
  induction l with
  | nil =>
      intro canvas c2 evs h e he
      simp only [placeLoop] at h
      cases h
      cases he
  | cons head rest ih =>
      intro canvas c2 evs h e he
      obtain ⟨px, py, color⟩ := head
      simp only [placeLoop] at h
      split at h
      · cases h
      · rename_i hvalid
        split at h
        · cases h
        · rename_i c3 evs3 hrec
          cases h
          rcases List.mem_cons.mp he with rfl | hmem
          · by_cases hc : color = 0 <;> simp [hc]
          · exact ih _ _ _ hrec e hmem

/-- Claim C3: an accepted `placePixel` with color `0` stores and emits
the sentinel `0x010101`; every event an accepted placement (single or
batch) emits carries a nonzero color, so the stream the indexer
consumes never carries color `0`; and the indexer's normalization
preserves the received color unchanged. -/
theorem color_zero_sentinel
    (s s' sb sb' : ContractState) (sender px py color ts pos : Nat)
    (ev : PixelPlacedEvent)
    (pxs pys cs : List Nat) (evs : List PixelPlacedEvent)
    (hok : placePixel s sender px py color ts = .ok (s', ev))
    (hbatch : placePixelBatch sb sender pxs pys cs ts = .ok (sb', evs)) :
    ev.color = (if color = 0 then 0x010101 else color)
      ∧ ev.color ≠ 0
      ∧ (s'.canvas (px + py * CANVAS_RES)).color =
          (if color = 0 then 0x010101 else color)
      ∧ (normalizeEvent ev pos).color = ev.color
      ∧ (∀ e ∈ evs, e.color ≠ 0) := by
  simp only [placePixel] at hok
  split at hok
  · cases hok
  · split at hok
    · cases hok
    · cases hok
      refine ⟨rfl, ?_, by simp, rfl, ?_⟩
      · by_cases hc : color = 0 <;> simp [hc]
      · simp only [placePixelBatch] at hbatch
        split at hbatch
        · cases hbatch
        · split at hbatch
          · cases hbatch
          · split at hbatch
            · cases hbatch
            · split at hbatch
              · cases hbatch
              · rename_i c2 evs2 hloop
                cases hbatch
                intro e he
                exact placeLoop_no_zero_color sender _ _ _ _ _ hloop e he

/-- Concrete witness for `color_zero_sentinel`: a fresh contract, one
single placement of color `0` at `(15, 15)` and one batch placing
colors `0` and `0xFF0000`. -/
theorem color_zero_sentinel_witness :
    let s0 : ContractState :=
      { canvas := fun _ => emptyPixel, lastPlaced := fun _ => 0,
        premiumAccess := fun _ => 0 }
    ∃ (s' sb' : ContractState) (ev : PixelPlacedEvent)
      (evs : List PixelPlacedEvent),
      placePixel s0 1 15 15 0 100 = .ok (s', ev)
        ∧ placePixelBatch s0 1 [30, 31] [40, 41] [0, 0xFF0000] 100 =
            .ok (sb', evs)
        ∧ (ev.color = (if 0 = 0 then 0x010101 else 0)
            ∧ ev.color ≠ 0
            ∧ (s'.canvas (15 + 15 * CANVAS_RES)).color =
                (if 0 = 0 then 0x010101 else 0)
            ∧ (normalizeEvent ev 7).color = ev.color
            ∧ (∀ e ∈ evs, e.color ≠ 0)) := by
  intro s0
  refine ⟨_, _, _, _, rfl, rfl, ?_⟩
  exact color_zero_sentinel s0 _ s0 _ 1 15 15 0 100 7 _
    [30, 31] [40, 41] [0, 0xFF0000] _ rfl rfl

/-! ### Binary full dump (GET /api/pixels/binary) and its decoder -/

/-- The four bytes of a u32 written little-endian. -/
def toLEBytes32 (n : Nat) : List Nat :=
  [n % 256, n / 256 % 256, n / 65536 % 256, n / 16777216 % 256]

/-- Modelled from the spec: `eventListener.getPixelsBinary` is not
among the sources; per the spec the binary dump is "a fixed-width
binary encoding (`x:u32-LE, y:u32-LE, color:u32-LE` per record,
concatenated)" enumerating the same record set as the descriptive
dump. -/
def getPixelsBinary (recs : List Record) : List Nat :=
  recs.flatMap fun r =>
    toLEBytes32 r.x ++ toLEBytes32 r.y ++ toLEBytes32 r.color

/-- Modelled from the spec: `eventListener.getPixelsArray` without
pagination arguments — the descriptive (JSON) full dump enumerates the
Cache's record set. -/
def getPixelsArray (recs : List Record) : List Record := recs

/-- `DataView.getUint32(offset, true)`: the little-endian u32 read the
frontend decoder performs at a byte offset (missing bytes read 0). -/
def readU32LE (buffer : List Nat) (offset : Nat) : Nat :=
  buffer.getD offset 0 + 256 * buffer.getD (offset + 1) 0 +
    65536 * buffer.getD (offset + 2) 0 +
    16777216 * buffer.getD (offset + 3) 0

/-- The decode loop of `fetchAllPixelsBinary` from
`frontend/src/services/backendApi.ts`: `pixelCount = byteLength / 12`,
then for each `i` the triple at offsets `i*12`, `i*12+4`, `i*12+8`. -/
def decodeBinaryPixels (buffer : List Nat) : List (Nat × Nat × Nat) :=
  (List.range (buffer.length / 12)).map fun i =>
    (readU32LE buffer (i * 12), readU32LE buffer (i * 12 + 4),
      readU32LE buffer (i * 12 + 8))

/-- The `X-Pixel-Count` response header set by `app.ts`:
`buffer.length / 12`. -/
def binaryPixelCountHeader (buffer : List Nat) : Nat := buffer.length / 12

theorem readU32LE_append (pre rest : List Nat) (k : Nat) :
    readU32LE (pre ++ rest) (pre.length + k) = readU32LE rest k := by
  unfold readU32LE
  rw [show pre.length + k + 1 = pre.length + (k + 1) by omega,
    show pre.length + k + 2 = pre.length + (k + 2) by omega,
    show pre.length + k + 3 = pre.length + (k + 3) by omega]
  rw [List.getD_append_right pre rest 0 _ (by omega),
    List.getD_append_right pre rest 0 _ (by omega),
    List.getD_append_right pre rest 0 _ (by omega),
    List.getD_append_right pre rest 0 _ (by omega)]
  simp

theorem readU32LE_toLEBytes32 (n : Nat) (rest : List Nat) (h : n < 2 ^ 32) :
    readU32LE (toLEBytes32 n ++ rest) 0 = n := by
  simp only [toLEBytes32, List.cons_append, List.nil_append, readU32LE,
    List.getD, List.get?, Option.getD_some]
  omega

theorem decodeBinaryPixels_chunk (chunk rest : List Nat)
    (hc : chunk.length = 12) :
    decodeBinaryPixels (chunk ++ rest) =
      (readU32LE (chunk ++ rest) 0, readU32LE (chunk ++ rest) 4,
        readU32LE (chunk ++ rest) 8) :: decodeBinaryPixels rest := by
  have hshift : ∀ i j : Nat,
      readU32LE (chunk ++ rest) ((i + 1) * 12 + j) =
        readU32LE rest (i * 12 + j) := by
    intro i j
    have harith : (i + 1) * 12 + j = chunk.length + (i * 12 + j) := by
      rw [hc]
      ring
    rw [harith, readU32LE_append]
  unfold decodeBinaryPixels
  rw [List.length_append, hc,
    show 12 + rest.length = rest.length + 12 by omega,
    Nat.add_div_right _ (by omega), List.range_succ_eq_map, List.map_cons,
    List.map_map]
  refine List.cons_eq_cons.mpr ⟨by norm_num, ?_⟩
  apply List.map_congr_left
  intro i _
  have e0 := hshift i 0
  have e4 := hshift i 4
  have e8 := hshift i 8
  simp only [Nat.add_zero] at e0
  simp only [Function.comp_apply, Nat.succ_eq_add_one]
  rw [e0, e4, e8]

theorem decode_encode_pixels (recs : List Record)
    (hb : ∀ r ∈ recs, r.x < 2 ^ 32 ∧ r.y < 2 ^ 32 ∧ r.color < 2 ^ 32) :
    decodeBinaryPixels (getPixelsBinary recs) =
      recs.map fun r => (r.x, r.y, r.color) := by
  induction recs with
  | nil => rfl
  | cons r rest ih =>
      have hr := hb r (List.mem_cons_self r rest)
      have hchunk :
          (toLEBytes32 r.x ++ toLEBytes32 r.y ++ toLEBytes32 r.color).length
            = 12 := by
        simp [toLEBytes32]
      rw [getPixelsBinary, List.flatMap_cons, ← getPixelsBinary,
        decodeBinaryPixels_chunk _ _ hchunk]
      congr 1
      · have h4 : readU32LE
            ((toLEBytes32 r.x ++ toLEBytes32 r.y ++ toLEBytes32 r.color) ++
              getPixelsBinary rest) 4 =
            readU32LE (toLEBytes32 r.y ++
              (toLEBytes32 r.color ++ getPixelsBinary rest)) 0 := by
          rw [show (4 : Nat) = (toLEBytes32 r.x).length + 0 by simp [toLEBytes32]]
          rw [List.append_assoc, List.append_assoc, readU32LE_append,
            ← List.append_assoc]
        have h8 : readU32LE
            ((toLEBytes32 r.x ++ toLEBytes32 r.y ++ toLEBytes32 r.color) ++
              getPixelsBinary rest) 8 =
            readU32LE (toLEBytes32 r.color ++ getPixelsBinary rest) 0 := by
          rw [show (8 : Nat) =
              (toLEBytes32 r.x ++ toLEBytes32 r.y).length + 0 by
                simp [toLEBytes32]]
          rw [List.append_assoc, readU32LE_append]
        rw [h4, h8]
        have h0 : readU32LE
            ((toLEBytes32 r.x ++ toLEBytes32 r.y ++ toLEBytes32 r.color) ++
              getPixelsBinary rest) 0 =
            readU32LE (toLEBytes32 r.x ++
              (toLEBytes32 r.y ++ (toLEBytes32 r.color ++
                getPixelsBinary rest))) 0 := by
          rw [List.append_assoc, List.append_assoc]
        rw [h0, readU32LE_toLEBytes32 _ _ hr.1,
          readU32LE_toLEBytes32 _ _ hr.2.1,
          readU32LE_toLEBytes32 _ _ hr.2.2]
      · exact ih fun q hq => hb q (List.mem_cons_of_mem r hq)

/-- Claim C4: for a fixed Cache state the binary dump is the
concatenation of 12-byte little-endian `(x, y, color)` records, the
record-count header equals the body length divided by 12, and the
frontend decode of the binary dump yields exactly the `(x, y, color)`
triples of the descriptive full dump of the same state. -/
theorem binary_descriptive_round_trip (recs : List Record)
    (hb : ∀ r ∈ recs, r.x < 2 ^ 32 ∧ r.y < 2 ^ 32 ∧ r.color < 2 ^ 32) :
    (getPixelsBinary recs).length = 12 * recs.length
      ∧ binaryPixelCountHeader (getPixelsBinary recs) = recs.length
      ∧ decodeBinaryPixels (getPixelsBinary recs) =
          (getPixelsArray recs).map (fun r => (r.x, r.y, r.color)) := by
  have hlen : ∀ l : List Record,
      (getPixelsBinary l).length = 12 * l.length := by
    intro l
    induction l with
    | nil => rfl
    | cons r rest ih =>
        rw [getPixelsBinary, List.flatMap_cons, ← getPixelsBinary,
          List.length_append, ih]
        simp [toLEBytes32, Nat.mul_succ]
        omega
  refine ⟨hlen recs, ?_, decode_encode_pixels recs hb⟩
  rw [binaryPixelCountHeader, hlen recs]
  omega

/-- Concrete witness for `binary_descriptive_round_trip`: two records,
one of them an explicitly cleared pixel. -/
theorem binary_descriptive_round_trip_witness :
    let r1 : Record :=
      { x := 3, y := 5, color := 0xFF0000, placedBy := "a",
        timestamp := 1, position := 1 }
    let r2 : Record :=
      { x := 1048575, y := 0, color := 0, placedBy := "b",
        timestamp := 2, position := 2 }
    (getPixelsBinary [r1, r2]).length = 12 * ([r1, r2] : List Record).length
      ∧ binaryPixelCountHeader (getPixelsBinary [r1, r2]) =
          ([r1, r2] : List Record).length
      ∧ decodeBinaryPixels (getPixelsBinary [r1, r2]) =
          (getPixelsArray [r1, r2]).map (fun r => (r.x, r.y, r.color)) := by
  intro r1 r2
  exact binary_descriptive_round_trip [r1, r2] (by decide)

/-! ### Paginated full dump (GET /api/pixels) -/

/-- Modelled from the spec: `eventListener.getPixelsArray(limit, offset)`
is not among the sources; per the spec the Cache exposes
`all()/paginate(offset, limit)` — the slice of the record enumeration
starting at `offset`, of length at most `limit` when a limit is
given. -/
def getPixelsArraySlice (recs : List Record) (limit : Option Nat)
    (offset : Nat) : List Record :=
  match limit with
  | none => recs.drop offset
  | some l => (recs.drop offset).take l

/-- Body of a successful `GET /api/pixels` response. -/
structure PixelsBody where
  count : Nat
  total : Nat
  hasMore : Bool
  pixels : List Record
  deriving Repr, DecidableEq

/-- Responses of `GET /api/pixels`. -/
inductive PixelsRouteResult where
  | badRequest (msg : String)
  | okPixels (body : PixelsBody)
  deriving Repr, DecidableEq

/-- The handler of `GET /api/pixels` from `app.ts`: validate `limit`
(0–100000) and `offset` (0–10000000) when provided, take the paginated
array when either is provided (else the full array), and report
`count`, `total` and `hasMore := offset + count < total`. The record
set and `stats.totalPixels` come from the event listener and are
parameters here. -/
def pixelsRoute (recs : List Record) (totalPixels : Nat)
    (limit offset : Option Int) : PixelsRouteResult :=
  if limit.isSome && !isValidPaginationParam limit 100000 then
    .badRequest "Invalid limit. Must be 0-100000."
  else if offset.isSome && !isValidPaginationParam offset 10000000 then
    .badRequest "Invalid offset. Must be 0-10000000."
  else
    let offsetNum : Nat := (offset.getD 0).toNat
    let pixelArray :=
      if limit.isSome || offset.isSome then
        getPixelsArraySlice recs (limit.map Int.toNat) offsetNum
      else
        getPixelsArray recs
    .okPixels
      { count := pixelArray.length, total := totalPixels,
        hasMore := decide (offsetNum + pixelArray.length < totalPixels),
        pixels := pixelArray }

/-- Claim C9: for every accepted paginated full-dump request, the
response's `hasMore` is true exactly when the requested offset plus
the number of pixels actually returned is strictly below the total
record count reported in the same response. -/
theorem pagination_hasMore
    (recs : List Record) (totalPixels : Nat) (limit offset : Option Int)
    (body : PixelsBody)
    (hok : pixelsRoute recs totalPixels limit offset = .okPixels body) :
    (body.hasMore = true ↔ (offset.getD 0).toNat + body.count < body.total)
      ∧ body.count = body.pixels.length
      ∧ body.total = totalPixels := by
  simp only [pixelsRoute] at hok
  split at hok
  · cases hok
  · split at hok
    · cases hok
    · cases hok
      refine ⟨?_, rfl, rfl⟩
      simp

/-- Concrete witness for `pagination_hasMore`: three records, limit 2,
offset 1. -/
theorem pagination_hasMore_witness :
    let r : Record :=
      { x := 0, y := 0, color := 1, placedBy := "a",
        timestamp := 1, position := 1 }
    ∃ body : PixelsBody,
      pixelsRoute [r, r, r] 3 (some 2) (some 1) = .okPixels body
        ∧ ((body.hasMore = true ↔
              ((some 1 : Option Int).getD 0).toNat + body.count < body.total)
            ∧ body.count = body.pixels.length
            ∧ body.total = 3) := by
  intro r
  exact ⟨_, rfl, pagination_hasMore [r, r, r] 3 (some 2) (some 1) _ rfl⟩

/-! ### Orderly shutdown (backend/src/index.ts) -/

/-- Observable pipeline state for the shutdown path: whether the Live
Tail polling/watch loop runs, whether the final snapshot plus
checkpoint has been flushed, whether the process has exited, and how
many asynchronous activities are still running. -/
structure PipelineState where
  watching : Bool
  snapshotFlushed : Bool
  exited : Bool
  pendingAsyncTasks : Nat
  deriving Repr, DecidableEq

/-- The atomic steps the shutdown handler performs. -/
inductive ShutdownStep where
  | stopWatchLoop
  | flushSnapshot
  | exitProcess
  deriving Repr, DecidableEq

/-- Modelled from the spec: the `shutdown` handler in `index.ts` calls
`eventListener.stopWatching()` and then `process.exit(0)`;
`stopWatching` itself is not among the sources, and per the spec it
"stops Live Tail's polling/watch loop … flushes a final snapshot, and
then returns". The handler is modelled as this step sequence. -/
def shutdownTrace : List ShutdownStep :=
  [.stopWatchLoop, .flushSnapshot, .exitProcess]

/-- Effect of one shutdown step; `process.exit(0)` terminates every
remaining asynchronous activity. -/
def runStep (s : PipelineState) : ShutdownStep → PipelineState
  | .stopWatchLoop => { s with watching := false }
  | .flushSnapshot => { s with snapshotFlushed := true }
  | .exitProcess => { s with exited := true, pendingAsyncTasks := 0 }

/-- The shutdown handler: the step sequence applied in order. -/
def shutdown (s : PipelineState) : PipelineState :=
  shutdownTrace.foldl runStep s

/-- Claim C5: after the shutdown signal the Live Tail polling/watch
loop is stopped, the final snapshot is flushed, and the process has
returned with no asynchronous activity still running; the flush
happens after the watch loop stops and before the exit, which is the
last step. -/
theorem orderly_shutdown (s : PipelineState) :
    (shutdown s).watching = false
      ∧ (shutdown s).snapshotFlushed = true
      ∧ (shutdown s).exited = true
      ∧ (shutdown s).pendingAsyncTasks = 0
      ∧ shutdownTrace.indexOf ShutdownStep.stopWatchLoop <
          shutdownTrace.indexOf ShutdownStep.flushSnapshot
      ∧ shutdownTrace.indexOf ShutdownStep.flushSnapshot <
          shutdownTrace.indexOf ShutdownStep.exitProcess
      ∧ shutdownTrace.getLast? = some ShutdownStep.exitProcess :=
  ⟨rfl, rfl, rfl, rfl, by decide, by decide, rfl⟩

/-! ### SSE push stream (GET /api/pixels/stream) -/

/-- One occurrence observed by an open SSE connection: a pixel
published through the fan-out registry, or a heartbeat interval
tick. -/
inductive SessionInput where
  | publishPixel (r : Record)
  | heartbeatTick
  deriving Repr, DecidableEq

/-- The three SSE event kinds the handler writes. -/
inductive SSEEvent where
  | connected
  | pixelEvent (r : Record)
  | heartbeat
  deriving Repr, DecidableEq

/-- What the `app.ts` stream handler writes for one occurrence: the
`onPixel` callback writes one `pixel` event with the record as
payload; the interval timer writes one `heartbeat` event. -/
def emitEvent : SessionInput → SSEEvent
  | .publishPixel r => .pixelEvent r
  | .heartbeatTick => .heartbeat

/-- The full event stream of one connection as written by the
`app.ts` handler: the one-time `connected` acknowledgment first, then
one event per occurrence in arrival order. -/
def connectionEvents (inputs : List SessionInput) : List SSEEvent :=
  SSEEvent.connected :: inputs.map emitEvent

/-- The records published to a session. -/
def sessionPublishes (inputs : List SessionInput) : List Record :=
  inputs.filterMap fun i =>
    match i with
    | .publishPixel r => some r
    | .heartbeatTick => none

/-- Modelled from the spec: the fan-out registry behind
`eventListener.onPixel` is not among the sources; per the spec "No
replay buffer is kept per subscriber — a newly connected subscriber
receives only records published after it subscribes". Out of the
global publish sequence, a connection open from global publish index
`connectAt` until `disconnectAt` is fed exactly the slice in
between. -/
def connectionRecords (published : List Record)
    (connectAt disconnectAt : Nat) : List Record :=
  (published.take disconnectAt).drop connectAt

/-- Payload of a `pixel` event, if any. -/
def recordPayload : SSEEvent → Option Record
  | .pixelEvent r => some r
  | _ => none

theorem count_heartbeat_map (inputs : List SessionInput) :
    (inputs.map emitEvent).count SSEEvent.heartbeat =
      inputs.count SessionInput.heartbeatTick := by
  induction inputs with
  | nil => rfl
  | cons i rest ih =>
      cases i <;> simp [emitEvent, List.count_cons, ih]

/-- Claim C8: a connection's stream begins with exactly one
`connected` acknowledgment, carries one `pixel` event per record
published while the connection is open (payload preserved, in order),
one `heartbeat` event per heartbeat tick, and never an event for a
record committed before the subscriber connected. -/
theorem sse_stream_shape
    (published : List Record) (connectAt disconnectAt : Nat)
    (inputs : List SessionInput)
    (hfeed : sessionPublishes inputs =
      connectionRecords published connectAt disconnectAt) :
    (connectionEvents inputs).head? = some SSEEvent.connected
      ∧ (connectionEvents inputs).count SSEEvent.connected = 1
      ∧ (connectionEvents inputs).filterMap recordPayload =
          connectionRecords published connectAt disconnectAt
      ∧ (connectionEvents inputs).count SSEEvent.heartbeat =
          inputs.count SessionInput.heartbeatTick
      ∧ (∀ r, r ∈ (connectionEvents inputs).filterMap recordPayload →
          r ∈ published.drop connectAt) := by
  have hpayload : (connectionEvents inputs).filterMap recordPayload =
      sessionPublishes inputs := by
    rw [connectionEvents, List.filterMap_cons, List.filterMap_map]
    show List.filterMap (recordPayload ∘ emitEvent) inputs = _
    rw [sessionPublishes]
    congr 1
    funext i
    cases i <;> rfl
  refine ⟨rfl, ?_, ?_, ?_, ?_⟩
  · rw [connectionEvents, List.count_cons_self]
    have : (inputs.map emitEvent).count SSEEvent.connected = 0 := by
      rw [List.count_eq_zero]
      intro hmem
      obtain ⟨i, _, hi⟩ := List.mem_map.mp hmem
      cases i <;> simp [emitEvent] at hi
    rw [this]
  · rw [hpayload, hfeed]
  · rw [connectionEvents, List.count_cons_of_ne (by simp),
      count_heartbeat_map]
  · intro r hr
    rw [hpayload, hfeed, connectionRecords, List.drop_take] at hr
    exact List.mem_of_mem_take hr

/-- Concrete witness for `sse_stream_shape`: three globally published
records; the subscriber connects after the first and disconnects after
the third, observing the second and third with a heartbeat in
between. -/
theorem sse_stream_shape_witness :
    let mk : Nat → Record := fun p =>
      { x := 5, y := 5, color := p, placedBy := "a",
        timestamp := p, position := p }
    let published : List Record := [mk 1, mk 2, mk 3]
    let inputs : List SessionInput :=
      [.publishPixel (mk 2), .heartbeatTick, .publishPixel (mk 3)]
    (connectionEvents inputs).head? = some SSEEvent.connected
      ∧ (connectionEvents inputs).count SSEEvent.connected = 1
      ∧ (connectionEvents inputs).filterMap recordPayload =
          connectionRecords published 1 3
      ∧ (connectionEvents inputs).count SSEEvent.heartbeat =
          inputs.count SessionInput.heartbeatTick
      ∧ (∀ r, r ∈ (connectionEvents inputs).filterMap recordPayload →
          r ∈ published.drop 1) := by
  intro mk published inputs
  exact sse_stream_shape published 1 3 inputs (by decide)

end Megaplace
